import Mathlib

/-!
Shallow embedding of the subilo job-execution witness (src/job/mod.rs) and
the bearer-token access gate (src/auth.rs).

Effectful Rust code is embedded as pure functions that return, besides their
`Except` result, the ordered list of side effects (log-file writes and
database messages) they issue.  Each fallible primitive effect is driven by a
Boolean oracle argument saying whether that effect succeeds, so every control
path of the source is represented.
-/

namespace Subilo

/-- The effects a witness operation issues, in order: a byte append to the
job's log file, or a message sent to the database actor
(`database::Execute { query, params }`). -/
inductive Event
  | logWrite (bytes : String)
  | dbExecute (query : String) (params : List String)
deriving DecidableEq, Repr

/-- The `SubiloError` variants reachable from `job/mod.rs` (payloads of the
underlying io/serde errors are irrelevant to control flow and dropped). -/
inductive SubiloError
  | CreateLogDir
  | CreateLogFile
  | WriteLogFile
  | ParseProjectCommands
  | DatabaseActor
  | DatabaseQuery
deriving DecidableEq, Repr

/-- `JobStatus` from job/mod.rs. -/
inductive JobStatus
  | Started
  | Succeeded
  | Failed
deriving DecidableEq, Repr

/-- The derived `Debug` rendering of `JobStatus`, which the `Display`
impl writes verbatim (`write!(f, "{:?}", self)`). -/
def JobStatus.fmtDebug : JobStatus → String
  | .Started => "Started"
  | .Succeeded => "Succeeded"
  | .Failed => "Failed"

/-- ASCII lower-casing of one character, the case Rust's
`str::to_lowercase` applies to the ASCII-only `Debug` renderings above. -/
def lowerAscii (c : Char) : Char :=
  if 'A' ≤ c ∧ c ≤ 'Z' then Char.ofNat (c.toNat + 32) else c

/-- Rust's `str::to_lowercase` on the status renderings (all ASCII). -/
def toLowercase (s : String) : String := ⟨s.data.map lowerAscii⟩

/-- `JobStatus::to_string().to_lowercase()` as used at every persistence
call site. -/
def JobStatus.toLowerToken (s : JobStatus) : String :=
  toLowercase s.fmtDebug

/-- Modelled from the spec: the SQL text of `query::INSERT_JOB` lives in
job/query.rs, which is not under src/; the queries are opaque to the witness,
so they are embedded as distinct opaque identifiers. -/
def INSERT_JOB : String := "INSERT_JOB"

/-- Modelled from the spec: opaque identifier for `query::UPDATE_JOB`
(job/query.rs is not under src/). -/
def UPDATE_JOB : String := "UPDATE_JOB"

/-- A UTC wall-clock instant with millisecond precision, the data rendered
by `chrono::Utc::now().to_rfc3339_opts(Millis, true)`. -/
structure UtcTime where
  year : Nat
  month : Nat
  day : Nat
  hour : Nat
  minute : Nat
  second : Nat
  millis : Nat
deriving DecidableEq, Repr

def pad2 (n : Nat) : String :=
  if n < 10 then "0" ++ toString n else toString n

def pad3 (n : Nat) : String :=
  if n < 10 then "00" ++ toString n
  else if n < 100 then "0" ++ toString n
  else toString n

def pad4 (n : Nat) : String :=
  if n < 10 then "000" ++ toString n
  else if n < 100 then "00" ++ toString n
  else if n < 1000 then "0" ++ toString n
  else toString n

/-- Modelled from the spec: `chrono`'s `to_rfc3339_opts(SecondsFormat::Millis,
true)` rendering (the chrono crate is external to src/): RFC 3339 with exactly
three fractional-second digits and the literal `Z` UTC designator. -/
def to_rfc3339_millis (t : UtcTime) : String :=
  pad4 t.year ++ "-" ++ pad2 t.month ++ "-" ++ pad2 t.day ++ "T" ++
    pad2 t.hour ++ ":" ++ pad2 t.minute ++ ":" ++ pad2 t.second ++ "." ++
    pad3 t.millis ++ "Z"

/-- `now()` from job/mod.rs, with the ambient clock made an explicit
argument. -/
def now (t : UtcTime) : String := to_rfc3339_millis t

/-- A string is an RFC 3339 millisecond-precision UTC timestamp when it is
the rendering of some instant. -/
def isRfc3339MillisUtc (s : String) : Prop :=
  ∃ t : UtcTime, s = to_rfc3339_millis t

/-- Modelled from the spec: `shellexpand::tilde` (external crate), which
expands only a leading home-directory shorthand: `~` alone becomes the home
directory, a leading `~/` is replaced by the home directory, anything else is
returned unchanged.  The ambient home directory is an explicit argument. -/
def tilde (home : String) (s : String) : String :=
  match s.data with
  | ['~'] => home
  | '~' :: '/' :: rest => home ++ String.mk ('/' :: rest)
  | _ => s

/-- `create_log_name` from job/mod.rs. -/
def create_log_name (home : String) (job : String) (log_dir : String) : String :=
  let log_dir := tilde home log_dir
  log_dir ++ "/" ++ job ++ ".log"

/-- The fields of `Context` the witness reads: the log directory, plus the
ambient home directory consulted by tilde expansion.  The database actor
address is represented by the event trace instead of a handle. -/
structure Context where
  logs_dir : String
  home : String
deriving DecidableEq, Repr

/-- The fields of `core::Project` the witness uses: `description()` and
`name` are opaque strings; `commands_to_json()` is an opaque serialization
outcome, `none` meaning serde fails. -/
structure Project where
  name : String
  description : String
  commandsJson : Option String
deriving DecidableEq, Repr

/-- The runtime `Witness`: its generated id, the path of its log file and
the log file's current content (the open handle's target). -/
structure Witness where
  id : String
  logPath : String
  log : String
deriving DecidableEq, Repr

/-- Success oracles for the fallible effects of `Witness::new`, in program
order: `create_dir_all`, `File::create`, the description `write_all`, and
the two layers of the database send (actor mailbox, query execution). -/
structure NewOracle where
  dirOk : Bool
  fileOk : Bool
  writeOk : Bool
  actorOk : Bool
  queryOk : Bool
deriving DecidableEq, Repr

/-- `Witness::new` from job/mod.rs.  The generated `nanoid!()` and the
clock instant are explicit arguments; the returned trace lists the effects
issued before the function returned. -/
def Witness.new (job_name : String) (project : Project) (ctx : Context)
    (o : NewOracle) (id : String) (t : UtcTime) :
    List Event × Except SubiloError Witness :=
  if o.dirOk = false then ([], .error .CreateLogDir)
  else
    let path := create_log_name ctx.home job_name ctx.logs_dir
    if o.fileOk = false then ([], .error .CreateLogFile)
    else if o.writeOk = false then
      ([.logWrite project.description], .error .WriteLogFile)
    else
      let status := JobStatus.Started.toLowerToken
      let started_at := now t
      match project.commandsJson with
      | none => ([.logWrite project.description], .error .ParseProjectCommands)
      | some commands =>
        let ev := Event.dbExecute INSERT_JOB
          [id, job_name, status, project.name, commands, started_at]
        if o.actorOk = false then
          ([.logWrite project.description, ev], .error .DatabaseActor)
        else if o.queryOk = false then
          ([.logWrite project.description, ev], .error .DatabaseQuery)
        else
          ([.logWrite project.description, ev],
            .ok { id := id, logPath := path, log := project.description })

/-- `Witness::report_command` from job/mod.rs. -/
def Witness.report_command (w : Witness) (command : String) (writeOk : Bool) :
    List Event × Except SubiloError Witness :=
  let line := "$ " ++ command ++ "\n"
  if writeOk = false then ([.logWrite line], .error .WriteLogFile)
  else ([.logWrite line], .ok { w with log := w.log ++ line })

/-- `Witness::report_command_success` from job/mod.rs (takes `&self`: the
log is untouched; the result carries no new witness state). -/
def Witness.report_command_success (w : Witness)
    (actorOk queryOk : Bool) (t : UtcTime) :
    List Event × Except SubiloError Unit :=
  let ended_at := now t
  let status := JobStatus.Succeeded.toLowerToken
  let ev := Event.dbExecute UPDATE_JOB [w.id, status, ended_at]
  if actorOk = false then ([ev], .error .DatabaseActor)
  else if queryOk = false then ([ev], .error .DatabaseQuery)
  else ([ev], .ok ())

/-- The log line `Witness::report_command_error_by_code` appends for a given
optional exit status. -/
def exitLine (status_code : Option Int) : String :=
  match status_code with
  | some code => "Exit " ++ toString code ++ "\n"
  | none => "Process terminated by signal\n"

/-- `Witness::report_command_error_by_code` from job/mod.rs. -/
def Witness.report_command_error_by_code (w : Witness)
    (status_code : Option Int) (writeOk actorOk queryOk : Bool) (t : UtcTime) :
    List Event × Except SubiloError Witness :=
  let line := exitLine status_code
  if writeOk = false then ([.logWrite line], .error .WriteLogFile)
  else
    let ended_at := now t
    let status := JobStatus.Failed.toLowerToken
    let ev := Event.dbExecute UPDATE_JOB [w.id, status, ended_at]
    if actorOk = false then ([.logWrite line, ev], .error .DatabaseActor)
    else if queryOk = false then ([.logWrite line, ev], .error .DatabaseQuery)
    else ([.logWrite line, ev], .ok { w with log := w.log ++ line })

/-- `Witness::report_command_error` from job/mod.rs; `err.to_string()` is
the opaque argument `errText`. -/
def Witness.report_command_error (w : Witness) (errText : String)
    (writeOk actorOk queryOk : Bool) (t : UtcTime) :
    List Event × Except SubiloError Witness :=
  if writeOk = false then ([.logWrite errText], .error .WriteLogFile)
  else
    let ended_at := now t
    let status := JobStatus.Failed.toLowerToken
    let ev := Event.dbExecute UPDATE_JOB [w.id, status, ended_at]
    if actorOk = false then ([.logWrite errText, ev], .error .DatabaseActor)
    else if queryOk = false then ([.logWrite errText, ev], .error .DatabaseQuery)
    else ([.logWrite errText, ev], .ok { w with log := w.log ++ errText })

/-- `Witness::try_clone_log` duplicates the file descriptor: the duplicate
reads the same underlying file, so reading it yields the file's current
content. -/
def Witness.try_clone_log (w : Witness) : String := w.log

/-- One call of the external runner into the witness's reporting interface,
carrying the data the call supplies (and the clock instant observed by
`now()` during the call).  Effect oracles are not carried: `run` models the
executions in which every effect succeeds. -/
inductive ReportCall
  | cmd (command : String)
  | success (t : UtcTime)
  | errByCode (status_code : Option Int) (t : UtcTime)
  | err (errText : String) (t : UtcTime)
deriving DecidableEq, Repr

/-- Dispatch one reporting call on the success path, returning the updated
witness and the effects the call issued. -/
def runCall (w : Witness) : ReportCall → Witness × List Event
  | .cmd c =>
    match w.report_command c true with
    | (tr, .ok w1) => (w1, tr)
    | (tr, .error _) => (w, tr)
  | .success t =>
    match w.report_command_success true true t with
    | (tr, _) => (w, tr)
  | .errByCode code t =>
    match w.report_command_error_by_code code true true true t with
    | (tr, .ok w1) => (w1, tr)
    | (tr, .error _) => (w, tr)
  | .err e t =>
    match w.report_command_error e true true true t with
    | (tr, .ok w1) => (w1, tr)
    | (tr, .error _) => (w, tr)

/-- Run a sequence of reporting calls in call order, threading the witness
and concatenating the issued effects. -/
def run (w : Witness) : List ReportCall → Witness × List Event
  | [] => (w, [])
  | c :: cs =>
    let p := runCall w c
    let q := run p.1 cs
    (q.1, p.2 ++ q.2)

/-- In an event trace, every database message comes strictly after some log
append. -/
def updateAfterAppend (tr : List Event) : Prop :=
  ∀ i q p, tr.get? i = some (Event.dbExecute q p) →
    ∃ j s, j < i ∧ tr.get? j = some (Event.logWrite s)

/-! ## The access gate (src/auth.rs) -/

/-- The JWT algorithms relevant to the gate: `HS512` (the one the validator
requires) and a representative of every other algorithm. -/
inductive Algorithm
  | HS512
  | other
deriving DecidableEq, Repr

/-- `Claims` from auth.rs. -/
structure Claims where
  sub : String
  company : String
  exp : Nat
deriving DecidableEq, Repr

/-- A presented bearer token, after base64/JSON framing: its header
algorithm, its decoded claim set (`none` when the payload is malformed or
misses a required claim), and its signature value. -/
structure Token where
  alg : Algorithm
  payload : Option Claims
  sig : Nat
deriving DecidableEq, Repr

/-- The error classes of `jsonwebtoken::decode` the validator can observe. -/
inductive JwtError
  | InvalidAlgorithm
  | InvalidSignature
  | MalformedClaims
  | ExpiredSignature
deriving DecidableEq, Repr

/-- Modelled from the spec: `jsonwebtoken::decode::<Claims>` under
`Validation::new(Algorithm::HS512)` (the jsonwebtoken crate is external to
src/): it rejects a token whose header algorithm is not HS512, whose
HMAC-SHA512 signature over the token's signing input does not verify under
the given secret, whose claims are malformed or missing, or whose expiry is
not in the future; otherwise it returns the claims.  The HMAC itself is an
abstract function `mac` of the secret and the signed content. -/
def decodeClaims (mac : String → Algorithm → Option Claims → Nat)
    (secret : String) (nowSecs : Nat) (tok : Token) : Except JwtError Claims :=
  if tok.alg ≠ Algorithm.HS512 then .error .InvalidAlgorithm
  else if tok.sig ≠ mac secret tok.alg tok.payload then .error .InvalidSignature
  else
    match tok.payload with
    | none => .error .MalformedClaims
    | some c => if c.exp ≤ nowSecs then .error .ExpiredSignature else .ok c

/-- The outcome `validator` produces: pass the request through, or answer
with an authentication error. -/
inductive AuthOutcome
  | accept
  | reject
deriving DecidableEq, Repr

/-- `validator` from auth.rs: decode the bearer token against the shared
secret and map any `Ok` to acceptance and any `Err` to rejection; the
decoded claim content is discarded (`.map(|_| req)`). -/
def validator (mac : String → Algorithm → Option Claims → Nat)
    (secret : String) (nowSecs : Nat) (tok : Token) : AuthOutcome :=
  match decodeClaims mac secret nowSecs tok with
  | .ok _ => .accept
  | .error _ => .reject

/-- `create_token` from auth.rs: sign the fixed claim set
`{sub: "thresh:agent", company: "thresh", exp: 10_000_000_000}` with HS512
under the given secret. -/
def create_token (mac : String → Algorithm → Option Claims → Nat)
    (secret : String) : Token :=
  let claims : Claims :=
    { sub := "thresh:agent", company := "thresh", exp := 10000000000 }
  { alg := Algorithm.HS512
    payload := some claims
    sig := mac secret Algorithm.HS512 (some claims) }

/-! ## Theorems -/

/-- C1: for every optional exit code, `report_command_error_by_code` with
`Some code` appends exactly the line `"Exit {code}\n"` to the log and with
`None` appends exactly `"Process terminated by signal\n"`, and in both cases
it then issues a persistence UPDATE setting the job's status to the
lowercase token `"failed"` together with a fresh end timestamp. -/
theorem report_command_error_by_code_appends_exit_line_then_updates_failed :
    ∀ (w : Witness) (code : Int) (t : UtcTime),
    w.report_command_error_by_code (some code) true true true t =
      ([Event.logWrite ("Exit " ++ toString code ++ "\n"),
        Event.dbExecute UPDATE_JOB [w.id, "failed", to_rfc3339_millis t]],
       .ok { w with log := w.log ++ ("Exit " ++ toString code ++ "\n") }) ∧
    w.report_command_error_by_code none true true true t =
      ([Event.logWrite "Process terminated by signal\n",
        Event.dbExecute UPDATE_JOB [w.id, "failed", to_rfc3339_millis t]],
       .ok { w with log := w.log ++ "Process terminated by signal\n" }) := by
  intro w code t
  exact ⟨rfl, rfl⟩

/-- C2: for every job name `n` and log directory `d`, `Witness.new` creates
the log file at the deterministic path `{tilde-expanded d}/{n}.log`, and the
project's description is the first content written to that file (it is the
first issued effect, and the file content after the call is exactly the
description). -/
theorem new_success_log_path_and_first_write :
    ∀ (n pname desc cmds : String) (ctx : Context) (id : String) (t : UtcTime),
    Witness.new n ⟨pname, desc, some cmds⟩ ctx ⟨true, true, true, true, true⟩ id t =
      ([Event.logWrite desc,
        Event.dbExecute INSERT_JOB
          [id, n, "started", pname, cmds, to_rfc3339_millis t]],
       .ok { id := id,
             logPath := tilde ctx.home ctx.logs_dir ++ "/" ++ n ++ ".log",
             log := desc }) := by
  intro n pname desc cmds ctx id t
  rfl

/-- C5: for every command text `c`, `report_command` issues exactly one
effect, the log append of `"$ {c}\n"`, and no database message at all,
whether the write succeeds or fails; on success the only state change is
the log append. -/
theorem report_command_appends_only_no_persistence :
    ∀ (w : Witness) (c : String) (b : Bool),
    (w.report_command c b).1 = [Event.logWrite ("$ " ++ c ++ "\n")] ∧
    (∀ q p, Event.dbExecute q p ∉ (w.report_command c b).1) ∧
    w.report_command c true =
      ([Event.logWrite ("$ " ++ c ++ "\n")],
       .ok { w with log := w.log ++ ("$ " ++ c ++ "\n") }) ∧
    w.report_command c false =
      ([Event.logWrite ("$ " ++ c ++ "\n")], .error .WriteLogFile) := by
  intro w c b
  refine ⟨?_, ?_, rfl, rfl⟩
  · cases b <;> rfl
  · intro q p hmem
    cases b <;> simp [Witness.report_command] at hmem

/-- C9: `report_command_error` writes the runner error's string rendering to
the log exactly as produced (every log append it issues is the error text
verbatim, with no trailing newline added), while the log entries of
`report_command` and `report_command_error_by_code` always end in a
newline. -/
theorem report_command_error_writes_error_text_verbatim :
    ∀ (w : Witness) (e : String) (b a q : Bool) (t : UtcTime) (c : String)
      (code : Option Int),
    ((w.report_command_error e b a q t).1.head? = some (Event.logWrite e)) ∧
    (∀ s, Event.logWrite s ∈ (w.report_command_error e b a q t).1 → s = e) ∧
    (w.report_command c b).1 = [Event.logWrite ("$ " ++ c ++ "\n")] ∧
    (("$ " ++ c ++ "\n").data.getLast? = some '\n') ∧
    ((exitLine code).data.getLast? = some '\n') := by
  intro w e b a q t c code
  refine ⟨?_, ?_, ?_, ?_, ?_⟩
  · cases b <;> cases a <;> cases q <;> rfl
  · intro s hmem
    cases b <;> cases a <;> cases q <;>
      simp [Witness.report_command_error] at hmem <;> exact hmem
  · cases b <;> rfl
  · simp
    rw [List.getLast?_cons, List.getLast?_append]
    simp
  · cases code with
    | none => decide
    | some v =>
      simp [exitLine]
      rw [List.getLast?_cons, List.getLast?_append]
      simp

/-- C3: the access gate accepts exactly the tokens whose header algorithm is
HS512, whose signature is the HMAC of the signed content under the shared
secret, and whose claims decode with an expiry in the future; the claim
content itself (subject/company) is never compared against an expected
value, as the acceptance condition does not mention it. -/
theorem validator_accept_iff_signature_and_unexpired :
    ∀ (mac : String → Algorithm → Option Claims → Nat) (secret : String)
      (nowSecs : Nat) (tok : Token),
    validator mac secret nowSecs tok = .accept ↔
      (tok.alg = Algorithm.HS512 ∧
       tok.sig = mac secret tok.alg tok.payload ∧
       ∃ c, tok.payload = some c ∧ nowSecs < c.exp) := by
  intro mac secret nowSecs tok
  rcases tok with ⟨alg, payload, sig⟩
  cases alg with
  | other => simp [validator, decodeClaims]
  | HS512 =>
    cases payload with
    | none =>
      by_cases hsig : sig = mac secret Algorithm.HS512 none <;>
        simp [validator, decodeClaims, hsig]
    | some c =>
      by_cases hsig : sig = mac secret Algorithm.HS512 (some c)
      · by_cases hexp : c.exp ≤ nowSecs <;>
          simp [validator, decodeClaims, hsig, hexp] <;> omega
      · simp [validator, decodeClaims, hsig]

/-- C4: every failure mode of `Witness.new` — directory creation, file
creation, the first log write, command serialization, and both database
sub-failures — returns its typed error, and a witness value is returned
exactly when every step succeeds. -/
theorem new_failure_returns_typed_error_no_witness :
    ∀ (n pname desc cmds : String) (p : Project) (ctx : Context) (id : String)
      (t : UtcTime) (b1 b2 b3 b4 : Bool) (o : NewOracle),
    Witness.new n p ctx ⟨false, b1, b2, b3, b4⟩ id t =
      ([], .error .CreateLogDir) ∧
    Witness.new n p ctx ⟨true, false, b2, b3, b4⟩ id t =
      ([], .error .CreateLogFile) ∧
    Witness.new n p ctx ⟨true, true, false, b3, b4⟩ id t =
      ([Event.logWrite p.description], .error .WriteLogFile) ∧
    Witness.new n ⟨pname, desc, none⟩ ctx ⟨true, true, true, b3, b4⟩ id t =
      ([Event.logWrite desc], .error .ParseProjectCommands) ∧
    Witness.new n ⟨pname, desc, some cmds⟩ ctx ⟨true, true, true, false, b4⟩ id t =
      ([Event.logWrite desc,
        Event.dbExecute INSERT_JOB [id, n, "started", pname, cmds, now t]],
       .error .DatabaseActor) ∧
    Witness.new n ⟨pname, desc, some cmds⟩ ctx ⟨true, true, true, true, false⟩ id t =
      ([Event.logWrite desc,
        Event.dbExecute INSERT_JOB [id, n, "started", pname, cmds, now t]],
       .error .DatabaseQuery) ∧
    ((∃ w, (Witness.new n p ctx o id t).2 = .ok w) ↔
      (o.dirOk = true ∧ o.fileOk = true ∧ o.writeOk = true ∧
       p.commandsJson.isSome = true ∧ o.actorOk = true ∧ o.queryOk = true)) := by
  intro n pname desc cmds p ctx id t b1 b2 b3 b4 o
  refine ⟨rfl, rfl, rfl, rfl, rfl, rfl, ?_⟩
  rcases o with ⟨d1, d2, d3, d4, d5⟩
  rcases p with ⟨pn, ds, cj⟩
  cases d1 <;> cases d2 <;> cases d3 <;> cases cj <;> cases d4 <;> cases d5 <;>
    simp [Witness.new]

/-- In an event trace consisting of a single log append, there is no
database message at all. -/
theorem updateAfterAppend_single (l : String) :
    updateAfterAppend [Event.logWrite l] := by
  intro i q p h
  match i with
  | 0 => simp at h
  | n + 1 => simp at h

/-- In a trace of one log append followed by one database message, the
database message comes strictly after a log append. -/
theorem updateAfterAppend_pair (l q0 : String) (p0 : List String) :
    updateAfterAppend [Event.logWrite l, Event.dbExecute q0 p0] := by
  intro i q p h
  match i with
  | 0 => simp at h
  | 1 => exact ⟨0, l, Nat.zero_lt_one, rfl⟩
  | n + 2 => simp at h

/-- `run` issues effects strictly in call order: the trace of a concatenated
call sequence is the trace of the first part followed by the trace of the
second part started from the witness state the first part reached. -/
theorem run_append_trace :
    ∀ (cs1 cs2 : List ReportCall) (w : Witness),
    run w (cs1 ++ cs2) =
      ((run (run w cs1).1 cs2).1, (run w cs1).2 ++ (run (run w cs1).1 cs2).2) := by
  intro cs1
  induction cs1 with
  | nil => intro cs2 w; simp [run]
  | cons c cs ih => intro cs2 w; simp [run, ih, List.append_assoc]

/-- C6: log appends occur strictly in call order (`run` concatenates each
call's effects in order), and in the two reporting operations that both
append and persist, every database UPDATE comes strictly after the log
append, while a failed log append produces a trace with no database message
at all. -/
theorem update_issued_only_after_log_append :
    ∀ (w w0 : Witness) (code : Option Int) (e : String) (b a q : Bool)
      (t : UtcTime) (cs1 cs2 : List ReportCall),
    updateAfterAppend (w.report_command_error_by_code code b a q t).1 ∧
    updateAfterAppend (w.report_command_error e b a q t).1 ∧
    (w.report_command_error_by_code code false a q t).1 =
      [Event.logWrite (exitLine code)] ∧
    (w.report_command_error e false a q t).1 = [Event.logWrite e] ∧
    (run w0 (cs1 ++ cs2)).2 = (run w0 cs1).2 ++ (run (run w0 cs1).1 cs2).2 := by
  intro w w0 code e b a q t cs1 cs2
  refine ⟨?_, ?_, ?_, ?_, ?_⟩
  · cases b with
    | false => exact updateAfterAppend_single (exitLine code)
    | true =>
      cases a <;> cases q <;> exact updateAfterAppend_pair _ _ _
  · cases b with
    | false => exact updateAfterAppend_single e
    | true =>
      cases a <;> cases q <;> exact updateAfterAppend_pair _ _ _
  · rfl
  · rfl
  · rw [run_append_trace]

/-- C7: the status parameter of every database message any witness
operation issues is the lowercase rendering of a `JobStatus` value —
`"started"` for the INSERT, `"succeeded"` or `"failed"` for the UPDATEs —
and every start/end timestamp sent is the RFC 3339 millisecond-precision
UTC rendering of the clock instant observed during the call. -/
theorem persisted_status_tokens_and_timestamps :
    ∀ (n : String) (p : Project) (ctx : Context) (o : NewOracle) (id : String)
      (w : Witness) (b a q : Bool) (t : UtcTime) (code : Option Int) (e : String),
    (∀ qq ps, Event.dbExecute qq ps ∈ (Witness.new n p ctx o id t).1 →
      qq = INSERT_JOB ∧
      ∃ cm, ps = [id, n, JobStatus.Started.toLowerToken, p.name, cm, now t]) ∧
    (∀ qq ps, Event.dbExecute qq ps ∈ (w.report_command_success a q t).1 →
      qq = UPDATE_JOB ∧ ps = [w.id, JobStatus.Succeeded.toLowerToken, now t]) ∧
    (∀ qq ps, Event.dbExecute qq ps ∈ (w.report_command_error_by_code code b a q t).1 →
      qq = UPDATE_JOB ∧ ps = [w.id, JobStatus.Failed.toLowerToken, now t]) ∧
    (∀ qq ps, Event.dbExecute qq ps ∈ (w.report_command_error e b a q t).1 →
      qq = UPDATE_JOB ∧ ps = [w.id, JobStatus.Failed.toLowerToken, now t]) ∧
    JobStatus.Started.toLowerToken = "started" ∧
    JobStatus.Succeeded.toLowerToken = "succeeded" ∧
    JobStatus.Failed.toLowerToken = "failed" ∧
    isRfc3339MillisUtc (now t) := by
  intro n p ctx o id w b a q t code e
  refine ⟨?_, ?_, ?_, ?_, by decide, by decide, by decide, ⟨t, rfl⟩⟩
  · intro qq ps hmem
    rcases o with ⟨d1, d2, d3, d4, d5⟩
    rcases p with ⟨pn, ds, cj⟩
    cases d1 <;> cases d2 <;> cases d3 <;> cases cj <;> cases d4 <;> cases d5 <;>
      simp [Witness.new] at hmem <;> exact ⟨hmem.1, _, hmem.2⟩
  · intro qq ps hmem
    cases a <;> cases q <;>
      simp [Witness.report_command_success] at hmem <;> exact hmem
  · intro qq ps hmem
    cases b <;> cases a <;> cases q <;>
      simp [Witness.report_command_error_by_code] at hmem <;> exact hmem
  · intro qq ps hmem
    cases b <;> cases a <;> cases q <;>
      simp [Witness.report_command_error] at hmem <;> exact hmem

/-- Each single reporting call only appends to the witness's log. -/
theorem runCall_log_extends (w : Witness) (c : ReportCall) :
    ∃ s, (runCall w c).1.log = w.log ++ s := by
  cases c with
  | cmd cm => exact ⟨"$ " ++ cm ++ "\n", rfl⟩
  | success t => exact ⟨"", by simp [runCall]⟩
  | errByCode code t => exact ⟨exitLine code, rfl⟩
  | err e t => exact ⟨e, rfl⟩

/-- A run of reporting calls only appends to the witness's log. -/
theorem run_log_extends :
    ∀ (cs : List ReportCall) (w : Witness),
    ∃ s, (run w cs).1.log = w.log ++ s := by
  intro cs
  induction cs with
  | nil => intro w; exact ⟨"", by simp [run]⟩
  | cons c cs ih =>
    intro w
    obtain ⟨s1, h1⟩ := runCall_log_extends w c
    obtain ⟨s2, h2⟩ := ih (runCall w c).1
    refine ⟨s1 ++ s2, ?_⟩
    show (run (runCall w c).1 cs).1.log = w.log ++ (s1 ++ s2)
    rw [h2, h1, String.append_assoc]

/-- C8: a read handle obtained by `try_clone_log` at any point of a job's
reporting sequence sees the same underlying file, and its content at that
point is a prefix of the final log content: the witness only ever
appends. -/
theorem cloned_log_read_is_prefix_of_final :
    ∀ (w : Witness) (cs1 cs2 : List ReportCall),
    ∃ s, (run w (cs1 ++ cs2)).1.log =
      Witness.try_clone_log (run w cs1).1 ++ s := by
  intro w cs1 cs2
  obtain ⟨s, hs⟩ := run_log_extends cs2 (run w cs1).1
  refine ⟨s, ?_⟩
  rw [run_append_trace]
  exact hs

/-- C10: `create_log_name` tilde-expands only the log-directory argument and
does not sanitize the job name: it returns
`{expanded dir}/{job}.log` literally, so a job name containing a path
separator escapes the immediate log directory. -/
theorem create_log_name_no_sanitization :
    ∀ (home j d : String),
    create_log_name home j d = tilde home d ++ "/" ++ j ++ ".log" ∧
    create_log_name "/home/u" "a/b" "logs" = "logs/a/b.log" ∧
    create_log_name "/home/u" "../x" "logs" = "logs/../x.log" ∧
    tilde home "~" = home ∧
    tilde home "~/logs" = home ++ "/logs" ∧
    tilde home "logs" = "logs" := by
  intro home j d
  exact ⟨rfl, by decide, by decide, rfl, rfl, rfl⟩

end Subilo
